import Mathlib

/-!
Shallow embedding of the streaming query-response parser of
src/api/tenant-documents-style module (the queryDocument function) and of
the PDFViewer source normalization, together with proofs of the spec's
claims about them.

The parser consumes protocol lines of the form "data: <json>"; each parsed
payload is either a content chunk, an explicit done signal, or something
else.  We embed the per-line processing loop as a pure step function over
the loop's local state (inSourcesSection, sources, currentSourceText),
producing the list of callback invocations (onStreamChunk /
onSourcesReceived) as an explicit event list.
-/

namespace RagStream

/-- Drop the literal character list `lit` from the front of `cs`, returning
the remainder, or `none` when `cs` does not start with `lit`. -/
def dropLit : List Char → List Char → Option (List Char)
  | [], cs => some cs
  | _ :: _, [] => none
  | p :: ps, c :: cs => if p = c then dropLit ps cs else none

/-- JS `hay.includes(needle)`: `needle` occurs as a contiguous substring. -/
def listContains (hay needle : List Char) : Bool :=
  match hay with
  | [] => (dropLit needle ([] : List Char)).isSome
  | _ :: t => (dropLit needle hay).isSome || listContains t needle

/-- String wrapper for `listContains`, embedding JS `s.includes(pat)`. -/
def containsSubstr (s pat : String) : Bool :=
  listContains s.data pat.data

/-- The section delimiter looked for by the parser. -/
def sourcesSentinel : String := "--- Sources ---"

/-- Value of a decimal digit string, as computed by JS parseInt on an
all-digit string. -/
def digitsToNat (ds : List Char) : Nat :=
  ds.foldl (fun n c => 10 * n + (c.toNat - 48)) 0

/-- Embedding of the anchored regex `^Source \d+ \(Page \d+\):`: when the
text starts with the pattern, return the remainder after the matched
label (the regex is deterministic here because each `\d+` is followed by a
non-digit literal, so greedy matching needs no backtracking). -/
def stripSourceHeaderL (cs : List Char) : Option (List Char) :=
  match dropLit "Source ".data cs with
  | none => none
  | some rest =>
    let p1 := rest.span Char.isDigit
    if p1.1.isEmpty then none
    else
      match dropLit " (Page ".data p1.2 with
      | none => none
      | some rest2 =>
        let p2 := rest2.span Char.isDigit
        if p2.1.isEmpty then none
        else
          match p2.2 with
          | ')' :: ':' :: rest3 => some rest3
          | _ => none

/-- JS `chunk.match(/^Source \d+ \(Page \d+\):/)` tested for success. -/
def matchesSourceHeader (s : String) : Bool :=
  (stripSourceHeaderL s.data).isSome

/-- One attempt of the unanchored regex `Page (\d+)` at the current
position: literal "Page " followed by at least one digit; the captured
group is the maximal digit run. -/
def tryPageAt (cs : List Char) : Option Nat :=
  match dropLit "Page ".data cs with
  | none => none
  | some rest =>
    let p := rest.span Char.isDigit
    if p.1.isEmpty then none else some (digitsToNat p.1)

/-- Embedding of JS `text.match(/Page (\d+)/)`: first position (left to
right) where the pattern matches, returning the captured number. -/
def findPageNum : List Char → Option Nat
  | [] => none
  | c :: cs =>
    match tryPageAt (c :: cs) with
    | some n => some n
    | none => findPageNum cs

/-- The WHATWG white space set removed by JS String.prototype.trim. -/
def isJsWhitespace (c : Char) : Bool :=
  c.toNat = 9 || c.toNat = 10 || c.toNat = 11 || c.toNat = 12 ||
  c.toNat = 13 || c.toNat = 32 || c.toNat = 160 || c.toNat = 5760 ||
  (8192 ≤ c.toNat && c.toNat ≤ 8202) || c.toNat = 8232 ||
  c.toNat = 8233 || c.toNat = 8239 || c.toNat = 8287 ||
  c.toNat = 12288 || c.toNat = 65279

/-- JS `s.trim()`: strip leading and trailing white space. -/
def trimJs (cs : List Char) : List Char :=
  ((cs.dropWhile isJsWhitespace).reverse.dropWhile isJsWhitespace).reverse

/-- A finalized citation record `{ text, page }`. -/
structure Source where
  text : String
  page : Nat
deriving DecidableEq, Repr

/-- The loop-local mutable state of queryDocument's read loop. -/
structure QueryState where
  inSourcesSection : Bool
  sources : List Source
  currentSourceText : String
deriving DecidableEq, Repr

/-- A parsed "data: " payload: `{done: true}`, `{chunk: s}`, or any other
JSON shape. -/
inductive Payload where
  | doneMsg : Payload
  | chunkMsg : String → Payload
  | otherMsg : Payload
deriving DecidableEq

/-- One decoded protocol line, as classified by the read loop: a line not
starting with "data: ", a "data: " line whose JSON fails to parse, or a
parsed payload. -/
inductive SSELine where
  | nonData : String → SSELine
  | badJson : String → SSELine
  | dataLine : Payload → SSELine
deriving DecidableEq

/-- A callback invocation performed by the loop. -/
inductive OutEvent where
  | streamChunk : String → OutEvent
  | sourcesReceived : List Source → OutEvent
deriving DecidableEq

/-- Finalization of the pending record (source lines 128-140): page from
the first `Page (\d+)` match (0 when absent), text with the
`^Source \d+ \(Page \d+\):` label removed and the remainder trimmed. -/
def finalizeSource (cur : String) : Source :=
  { text := String.mk (trimJs ((stripSourceHeaderL cur.data).getD cur.data)),
    page := (findPageNum cur.data).getD 0 }

/-- Initial loop state (source lines 69-71). -/
def initialState : QueryState :=
  { inSourcesSection := false, sources := [], currentSourceText := "" }

/-- Processing of one parsed payload (source lines 103-155). -/
def processPayload (st : QueryState) : Payload → QueryState × List OutEvent
  | .doneMsg =>
    if st.sources.length > 0 then (st, [.sourcesReceived st.sources])
    else (st, [])
  | .chunkMsg chunk =>
    if containsSubstr chunk sourcesSentinel then
      ({ st with inSourcesSection := true }, [])
    else if st.inSourcesSection then
      if matchesSourceHeader chunk then
        if st.currentSourceText ≠ "" then
          ({ st with
              sources := st.sources ++ [finalizeSource st.currentSourceText],
              currentSourceText := chunk }, [])
        else
          ({ st with currentSourceText := chunk }, [])
      else
        ({ st with currentSourceText := st.currentSourceText ++ chunk }, [])
    else
      (st, [.streamChunk chunk])
  | .otherMsg => (st, [])

/-- Processing of one decoded line (source lines 95-159): lines without
the "data: " marker are skipped, JSON parse failures are caught and
skipped, parsed payloads are dispatched. -/
def processLine (st : QueryState) : SSELine → QueryState × List OutEvent
  | .nonData _ => (st, [])
  | .badJson _ => (st, [])
  | .dataLine p => processPayload st p

/-- The read loop over a list of decoded lines. -/
def processLines (st : QueryState) : List SSELine → QueryState × List OutEvent
  | [] => (st, [])
  | l :: ls =>
    let s1 := processLine st l
    let s2 := processLines s1.1 ls
    (s2.1, s1.2 ++ s2.2)

/-- Natural end of stream (source lines 79-85): fire onSourcesReceived
when sources is non-empty; the pending accumulator is not consulted. -/
def endOfStream (st : QueryState) : List OutEvent :=
  if st.sources.length > 0 then [.sourcesReceived st.sources] else []

/-- A whole stream: all decoded lines, then the transport reports done. -/
def runStream (ls : List SSELine) : QueryState × List OutEvent :=
  let s := processLines initialState ls
  (s.1, s.2 ++ endOfStream s.1)

/-- Whether an event is an onSourcesReceived invocation. -/
def isSourcesEvent : OutEvent → Bool
  | .sourcesReceived _ => true
  | _ => false

/-- Number of onSourcesReceived invocations in an event list. -/
def countSourcesReceived (evs : List OutEvent) : Nat :=
  (evs.filter isSourcesEvent).length

/-- Whether a line is an explicit `{done: true}` payload. -/
def isDoneLine : SSELine → Bool
  | .dataLine .doneMsg => true
  | _ => false

/-- Number of explicit `{done: true}` payload lines in a stream. -/
def numDoneLines (ls : List SSELine) : Nat :=
  (ls.filter isDoneLine).length

/-- Whether a line is a chunk payload whose text contains the sentinel. -/
def chunkHasSentinel : SSELine → Bool
  | .dataLine (.chunkMsg t) => containsSubstr t sourcesSentinel
  | _ => false

/-- PDFViewer's normalization of a citation page number (README listing:
`page: source.page === 0 ? 1 : source.page`). -/
def normalizePage (p : Nat) : Nat :=
  if p = 0 then 1 else p

/-- PDFViewer's normalizedSources: map the normalization over sources. -/
def normalizedSources (ss : List Source) : List Source :=
  ss.map fun s => { s with page := normalizePage s.page }

/-- State of the inner WHATWG UTF-8 decoder (the byte-level state
machine); byte-order-mark handling lives one layer up, in the
TextDecoder object that wraps this decoder. -/
structure Utf8DecoderState where
  codepoint : Nat
  bytesNeeded : Nat
  bytesSeen : Nat
  lowerBoundary : Nat
  upperBoundary : Nat
deriving DecidableEq, Repr

/-- Fresh decoder state. -/
def initDecoder : Utf8DecoderState :=
  { codepoint := 0, bytesNeeded := 0, bytesSeen := 0,
    lowerBoundary := 128, upperBoundary := 191 }

/-- One byte handled with no continuation pending: ASCII is emitted
directly, lead bytes set up the multi-byte state (with the WHATWG special
boundaries for E0/ED/F0/F4), anything else emits the replacement
character U+FFFD (65533). -/
def utf8Step0 (b : Nat) : Utf8DecoderState × List Nat :=
  if b ≤ 127 then (initDecoder, [b])
  else if 194 ≤ b ∧ b ≤ 223 then
    ({ codepoint := b % 32, bytesNeeded := 1, bytesSeen := 0,
       lowerBoundary := 128, upperBoundary := 191 }, [])
  else if 224 ≤ b ∧ b ≤ 239 then
    ({ codepoint := b % 16, bytesNeeded := 2, bytesSeen := 0,
       lowerBoundary := if b = 224 then 160 else 128,
       upperBoundary := if b = 237 then 159 else 191 }, [])
  else if 240 ≤ b ∧ b ≤ 244 then
    ({ codepoint := b % 8, bytesNeeded := 3, bytesSeen := 0,
       lowerBoundary := if b = 240 then 144 else 128,
       upperBoundary := if b = 244 then 143 else 191 }, [])
  else (initDecoder, [65533])

/-- One byte handled in an arbitrary decoder state: a continuation byte
outside the admissible range emits a replacement character and reprocesses
the byte in a fresh state; an admissible continuation accumulates the
codepoint and emits it when the sequence is complete. -/
def utf8Step (st : Utf8DecoderState) (b : Nat) : Utf8DecoderState × List Nat :=
  if st.bytesNeeded = 0 then utf8Step0 b
  else if b < st.lowerBoundary ∨ st.upperBoundary < b then
    let s := utf8Step0 b
    (s.1, 65533 :: s.2)
  else
    let cp := st.codepoint * 64 + b % 64
    if st.bytesSeen + 1 = st.bytesNeeded then (initDecoder, [cp])
    else ({ codepoint := cp, bytesNeeded := st.bytesNeeded,
            bytesSeen := st.bytesSeen + 1,
            lowerBoundary := 128, upperBoundary := 191 }, [])

/-- Stateful decoding of one delivered byte chunk: the decoder state is
carried across calls, which is what `{stream: true}` provides. -/
def utf8DecodeChunk (st : Utf8DecoderState) : List Nat → Utf8DecoderState × List Nat
  | [] => (st, [])
  | b :: bs =>
    let s1 := utf8Step st b
    let s2 := utf8DecodeChunk s1.1 bs
    (s2.1, s1.2 ++ s2.2)

/-- UTF-8 encoding of a scalar value, as the wire produces it. -/
def utf8Encode (cp : Nat) : List Nat :=
  if cp ≤ 127 then [cp]
  else if cp ≤ 2047 then [192 + cp / 64, 128 + cp % 64]
  else if cp ≤ 65535 then
    [224 + cp / 4096, 128 + cp / 64 % 64, 128 + cp % 64]
  else
    [240 + cp / 262144, 128 + cp / 4096 % 64, 128 + cp / 64 % 64, 128 + cp % 64]

/-- The byte-order-mark filter of the WHATWG TextDecoder serialize step,
for the default configuration (ignoreBOM unset, as in the read loop's
`new TextDecoder()`): the first code point the decoder ever outputs sets
the BOM-seen flag, and is suppressed when it is U+FEFF (65279); every
later code point passes through unchanged. -/
def stripBom : Bool → List Nat → Bool × List Nat
  | true, out => (true, out)
  | false, [] => (false, [])
  | false, c :: cs => (true, if c = 65279 then cs else c :: cs)

/-- State of the TextDecoder object used by the read loop: the inner
UTF-8 decoder state plus the BOM-seen flag, both of which persist across
`decode(value, {stream: true})` calls. -/
structure TextDecoderState where
  dec : Utf8DecoderState
  bomSeen : Bool
deriving DecidableEq, Repr

/-- A freshly constructed `new TextDecoder()`. -/
def initTextDecoder : TextDecoderState :=
  { dec := initDecoder, bomSeen := false }

/-- One `decode(value, {stream: true})` call: run the UTF-8 decoder over
the delivered bytes, then apply the BOM filter to the produced code
points, carrying both the decoder state and the BOM-seen flag. -/
def textDecodeChunk (st : TextDecoderState) (bytes : List Nat) :
    TextDecoderState × List Nat :=
  let d := utf8DecodeChunk st.dec bytes
  let b := stripBom st.bomSeen d.2
  ({ dec := d.1, bomSeen := b.1 }, b.2)

/-- The concrete chunk sequence of the spec's source-segmentation example,
preceded by the sentinel chunk that places the parser in the SOURCES
phase. -/
def segmentationStream : List SSELine :=
  [.dataLine (.chunkMsg "--- Sources ---"),
   .dataLine (.chunkMsg "Source 1 (Page 2): Foo "),
   .dataLine (.chunkMsg "bar."),
   .dataLine (.chunkMsg "Source 2 (Page 2): Baz.")]

/-- A stream that flushes one source record and then signals an explicit
done payload, after which the transport closes naturally. -/
def doubleEndStream : List SSELine :=
  [.dataLine (.chunkMsg "--- Sources ---"),
   .dataLine (.chunkMsg "Source 1 (Page 1): A."),
   .dataLine (.chunkMsg "Source 2 (Page 2): B."),
   .dataLine .doneMsg]

/-! ### General lemmas about the line-processing loop -/

theorem processLines_nil (st : QueryState) : processLines st [] = (st, []) := rfl

theorem processLines_cons (st : QueryState) (l : SSELine) (ls : List SSELine) :
    processLines st (l :: ls) =
      ((processLines (processLine st l).1 ls).1,
       (processLine st l).2 ++ (processLines (processLine st l).1 ls).2) := rfl

theorem processLines_append (st : QueryState) (xs ys : List SSELine) :
    processLines st (xs ++ ys) =
      ((processLines (processLines st xs).1 ys).1,
       (processLines st xs).2 ++ (processLines (processLines st xs).1 ys).2) := by
  induction xs generalizing st with
  | nil => simp [processLines_nil]
  | cons l ls ih =>
    simp only [List.cons_append, processLines_cons, ih, List.append_assoc]

theorem countSourcesReceived_append (a b : List OutEvent) :
    countSourcesReceived (a ++ b) =
      countSourcesReceived a + countSourcesReceived b := by
  simp [countSourcesReceived, List.filter_append]

/-- An answer-phase chunk without the sentinel leaves the state unchanged
and forwards the chunk. -/
theorem processLine_answer_chunk (st : QueryState) (t : String)
    (hs : containsSubstr t sourcesSentinel = false)
    (hp : st.inSourcesSection = false) :
    processLine st (SSELine.dataLine (.chunkMsg t)) =
      (st, [OutEvent.streamChunk t]) := by
  simp [processLine, processPayload, hs, hp]

/-- The loop fires onSourcesReceived at most once per done payload. -/
theorem count_le_done (ls : List SSELine) (st : QueryState) :
    countSourcesReceived (processLines st ls).2 ≤ numDoneLines ls := by
  induction ls generalizing st with
  | nil => simp [processLines_nil, countSourcesReceived, numDoneLines]
  | cons l ls ih =>
    have hone : countSourcesReceived (processLine st l).2 ≤
        (if isDoneLine l then 1 else 0) := by
      cases l with
      | nonData s => simp [processLine, countSourcesReceived, isDoneLine]
      | badJson s => simp [processLine, countSourcesReceived, isDoneLine]
      | dataLine p =>
        cases p with
        | doneMsg =>
          simp only [processLine, processPayload, isDoneLine]
          split <;> simp [countSourcesReceived, isSourcesEvent]
        | otherMsg => simp [processLine, processPayload, countSourcesReceived, isDoneLine]
        | chunkMsg c =>
          simp only [processLine, processPayload, isDoneLine]
          by_cases h1 : containsSubstr c sourcesSentinel
          · simp [h1, countSourcesReceived]
          · by_cases h2 : st.inSourcesSection
            · by_cases h3 : matchesSourceHeader c
              · by_cases h4 : st.currentSourceText = ""
                · simp [h1, h2, h3, h4, countSourcesReceived]
                · simp [h1, h2, h3, h4, countSourcesReceived]
              · simp [h1, h2, h3, countSourcesReceived]
            · simp [h1, h2, countSourcesReceived, isSourcesEvent]
    have hnum : numDoneLines (l :: ls) = (if isDoneLine l then 1 else 0) + numDoneLines ls := by
      simp only [numDoneLines, List.filter_cons]
      split <;> simp [Nat.add_comm]
    rw [processLines_cons, hnum]
    simp only [countSourcesReceived_append]
    have := ih (processLine st l).1
    omega

/-! ### Claim theorems -/

/-- C1 (counterexample): the claim that a still-pending source record is
finalized and appended at stream end fails on the code: for the spec's own
example chunks (in the SOURCES phase), the resulting sources list is not
the claimed two-record list — the second record is never appended. -/
theorem pending_source_not_finalized_cex :
    (runStream segmentationStream).1.sources ≠
      [{ text := "Foo bar.", page := 2 }, { text := "Baz.", page := 2 }] := by
  decide

/-- C1 (amended): at stream end the pending source record is NOT
finalized: onSourcesReceived receives only the records already flushed by
the arrival of a later record header, the pending accumulator still holds
the last record's text, and end-of-stream handling emits at most the
already-flushed sources; the example yields the single record
{text := "Foo bar.", page := 2}. -/
theorem pending_source_dropped_at_end :
    (runStream segmentationStream).1.sources = [{ text := "Foo bar.", page := 2 }] ∧
    (runStream segmentationStream).1.currentSourceText = "Source 2 (Page 2): Baz." ∧
    (runStream segmentationStream).2 =
      [OutEvent.sourcesReceived [{ text := "Foo bar.", page := 2 }]] ∧
    ∀ st : QueryState,
      endOfStream st = [] ∨ endOfStream st = [OutEvent.sourcesReceived st.sources] := by
  refine ⟨by decide, by decide, by decide, ?_⟩
  intro st
  unfold endOfStream
  split
  · exact Or.inr rfl
  · exact Or.inl rfl

/-- C2 (counterexample): onSourcesReceived does not fire exactly once when
an explicit done payload is followed by natural stream closure: on the
concrete stream it fires twice. -/
theorem sources_callback_not_once :
    countSourcesReceived (runStream doubleEndStream).2 ≠ 1 := by
  decide

/-- C2 (amended): onSourcesReceived fires once per end signal whenever
sources is non-empty — once at each explicit done payload and once more at
natural closure — hence twice on the concrete stream; in general it fires
at most (number of done payloads) + 1 times per stream. -/
theorem sources_callback_per_end_signal :
    countSourcesReceived (runStream doubleEndStream).2 = 2 ∧
    ∀ ls : List SSELine,
      countSourcesReceived (runStream ls).2 ≤ numDoneLines ls + 1 := by
  constructor
  · decide
  · intro ls
    have hend : countSourcesReceived (endOfStream (processLines initialState ls).1) ≤ 1 := by
      unfold endOfStream
      split <;> simp [countSourcesReceived, isSourcesEvent]
    have hloop := count_le_done ls initialState
    simp only [runStream, countSourcesReceived_append]
    omega

/-- C3: every chunk payload arriving while the parser is still in the
ANSWER phase (no sentinel seen, none contained in these chunks) is
forwarded to onStreamChunk exactly once, verbatim, in arrival order, with
no merging, splitting or loss, independently of the rest of the stream. -/
theorem chunk_ordering (texts : List String) (rest : List SSELine)
    (h : ∀ t ∈ texts, containsSubstr t sourcesSentinel = false) :
    processLines initialState
        ((texts.map fun t => SSELine.dataLine (.chunkMsg t)) ++ rest) =
      ((processLines initialState rest).1,
       texts.map OutEvent.streamChunk ++ (processLines initialState rest).2) := by
  induction texts with
  | nil => simp [processLines_nil]
  | cons t ts ih =>
    have ht : containsSubstr t sourcesSentinel = false := h t (by simp)
    have hts : ∀ x ∈ ts, containsSubstr x sourcesSentinel = false :=
      fun x hx => h x (by simp [hx])
    simp only [List.map_cons, List.cons_append, processLines_cons,
      processLine_answer_chunk initialState t ht rfl, ih hts, List.append_assoc,
      List.singleton_append, List.nil_append]

/-- C3 witness: the theorem applied to the chunks "Hello" and " world". -/
theorem chunk_ordering_witness :
    processLines initialState
        ((["Hello", " world"].map fun t => SSELine.dataLine (.chunkMsg t)) ++ []) =
      ((processLines initialState []).1,
       ["Hello", " world"].map OutEvent.streamChunk ++ (processLines initialState []).2) :=
  chunk_ordering ["Hello", " world"] [] (by decide)

/-- C5: a chunk payload whose text is exactly "--- Sources ---" produces
no onStreamChunk call and switches the phase to SOURCES, from any state. -/
theorem sentinel_suppression (st : QueryState) :
    processPayload st (.chunkMsg "--- Sources ---") =
      ({ st with inSourcesSection := true }, []) := by
  have hc : containsSubstr "--- Sources ---" sourcesSentinel = true := by decide
  simp [processPayload, hc]

/-- C6: the phase is monotonic — once inSourcesSection is true, processing
any further lines never resets it. -/
theorem phase_monotonic (st : QueryState) (ls : List SSELine)
    (h : st.inSourcesSection = true) :
    (processLines st ls).1.inSourcesSection = true := by
  induction ls generalizing st with
  | nil => simpa [processLines_nil] using h
  | cons l ls ih =>
    rw [processLines_cons]
    refine ih (processLine st l).1 ?_
    cases l with
    | nonData s => simpa [processLine] using h
    | badJson s => simpa [processLine] using h
    | dataLine p =>
      cases p with
      | doneMsg =>
        simp only [processLine, processPayload]
        split <;> simpa using h
      | otherMsg => simpa [processLine, processPayload] using h
      | chunkMsg c =>
        simp only [processLine, processPayload]
        by_cases h1 : containsSubstr c sourcesSentinel
        · simp [h1]
        · by_cases h3 : matchesSourceHeader c
          · by_cases h4 : st.currentSourceText = ""
            · simp [h1, h, h3, h4]
            · simp [h1, h, h3, h4]
          · simp [h1, h, h3]

/-- C6 witness: the theorem applied to a state already in the SOURCES
phase and one further chunk line. -/
theorem phase_monotonic_witness :
    (processLines { inSourcesSection := true, sources := [], currentSourceText := "" }
      [SSELine.dataLine (.chunkMsg "x")]).1.inSourcesSection = true :=
  phase_monotonic { inSourcesSection := true, sources := [], currentSourceText := "" }
    [SSELine.dataLine (.chunkMsg "x")] rfl

/-- C8: a line that does not start with "data: ", or whose payload fails
JSON parsing, is skipped without error and without effect: processing is
exactly as if the line were absent, so all later well-formed lines are
handled identically. -/
theorem malformed_line_skipped (st : QueryState) (xs ys : List SSELine) (s : String) :
    processLines st (xs ++ SSELine.nonData s :: ys) = processLines st (xs ++ ys) ∧
    processLines st (xs ++ SSELine.badJson s :: ys) = processLines st (xs ++ ys) := by
  constructor <;>
    rw [processLines_append, processLines_append] <;>
    simp [processLines_cons, processLine]

/-- C9: when no chunk payload in the stream contains the sentinel,
onSourcesReceived never fires — neither on a done payload nor at natural
end of stream. -/
theorem no_sentinel_no_sources (ls : List SSELine)
    (h : ∀ l ∈ ls, chunkHasSentinel l = false) :
    countSourcesReceived (runStream ls).2 = 0 := by
  have main : ∀ (ls : List SSELine) (st : QueryState),
      (∀ l ∈ ls, chunkHasSentinel l = false) →
      st.inSourcesSection = false → st.sources = [] →
      (processLines st ls).1.inSourcesSection = false ∧
      (processLines st ls).1.sources = [] ∧
      countSourcesReceived (processLines st ls).2 = 0 := by
    intro ls
    induction ls with
    | nil =>
      intro st _ h1 h2
      simp [processLines_nil, countSourcesReceived, h1, h2]
    | cons l ls ih =>
      intro st hall h1 h2
      have hl : chunkHasSentinel l = false := hall l (by simp)
      have hls : ∀ x ∈ ls, chunkHasSentinel x = false :=
        fun x hx => hall x (by simp [hx])
      have hstep : processLine st l = (st, []) ∨
          ∃ c, processLine st l = (st, [OutEvent.streamChunk c]) := by
        cases l with
        | nonData s => exact Or.inl rfl
        | badJson s => exact Or.inl rfl
        | dataLine p =>
          cases p with
          | doneMsg =>
            left
            simp [processLine, processPayload, h2]
          | otherMsg => exact Or.inl rfl
          | chunkMsg c =>
            right
            refine ⟨c, ?_⟩
            have hc : containsSubstr c sourcesSentinel = false := by
              simpa [chunkHasSentinel] using hl
            exact processLine_answer_chunk st c hc h1
      rcases hstep with he | ⟨c, he⟩ <;>
        · rw [processLines_cons, he]
          have := ih st hls h1 h2
          simpa [countSourcesReceived_append, countSourcesReceived, isSourcesEvent]
            using this
  obtain ⟨hA, hB, hC⟩ := main ls initialState h rfl rfl
  simp [runStream, countSourcesReceived_append, hC, endOfStream, hB]

/-- C9 witness: the theorem applied to a sentinel-free stream with a done
payload. -/
theorem no_sentinel_no_sources_witness :
    countSourcesReceived (runStream
      [SSELine.dataLine (.chunkMsg "hello"), SSELine.dataLine .doneMsg]).2 = 0 :=
  no_sentinel_no_sources
    [SSELine.dataLine (.chunkMsg "hello"), SSELine.dataLine .doneMsg] (by decide)

/-- C10: a chunk payload whose text contains the sentinel anywhere is
discarded wholesale: no onStreamChunk call, no change to the pending
source accumulator or the sources list, and the phase becomes SOURCES. -/
theorem sentinel_chunk_discarded (st : QueryState) (chunk : String)
    (h : containsSubstr chunk sourcesSentinel = true) :
    processPayload st (.chunkMsg chunk) = ({ st with inSourcesSection := true }, []) := by
  simp [processPayload, h]

theorem tryPageAt_nil : tryPageAt [] = none := rfl

/-- The regex scan embedded by findPageNum succeeds at the first position
where an attempt succeeds. -/
theorem findPageNum_of_first_match (i : Nat) (cs : List Char) (n : Nat)
    (hm : tryPageAt (cs.drop i) = some n)
    (hn : ∀ j, j < i → tryPageAt (cs.drop j) = none) :
    findPageNum cs = some n := by
  induction i generalizing cs with
  | zero =>
    cases cs with
    | nil => rw [List.drop_nil, tryPageAt_nil] at hm; exact absurd hm (by simp)
    | cons c cs =>
      rw [List.drop_zero] at hm
      simp only [findPageNum, hm]
  | succ i ih =>
    cases cs with
    | nil => rw [List.drop_nil, tryPageAt_nil] at hm; exact absurd hm (by simp)
    | cons c cs =>
      have h0 : tryPageAt (c :: cs) = none := by
        simpa using hn 0 (Nat.succ_pos i)
      simp only [findPageNum, h0]
      exact ih cs (by simpa using hm) (fun j hj => by simpa using hn (j + 1) (by omega))

/-- The regex scan fails when no position matches. -/
theorem findPageNum_of_no_match (cs : List Char)
    (h : ∀ i, i < cs.length → tryPageAt (cs.drop i) = none) :
    findPageNum cs = none := by
  induction cs with
  | nil => rfl
  | cons c cs ih =>
    have h0 : tryPageAt (c :: cs) = none := by simpa using h 0 (by simp)
    simp only [findPageNum, h0]
    exact ih fun i hi => by simpa using h (i + 1) (by simpa using Nat.succ_lt_succ hi)

/-- C7: the finalized record's page is the number captured by the first
"Page (\d+)" match of the accumulated text (0 when no position matches),
and PDFViewer's normalization maps page 0 to 1 while leaving every
non-zero page unchanged. -/
theorem page_extraction_and_normalization :
    (∀ cur : String, ∀ i n, tryPageAt (cur.data.drop i) = some n →
        (∀ j, j < i → tryPageAt (cur.data.drop j) = none) →
        (finalizeSource cur).page = n) ∧
    (∀ cur : String, (∀ i, i < cur.data.length → tryPageAt (cur.data.drop i) = none) →
        (finalizeSource cur).page = 0) ∧
    normalizePage 0 = 1 ∧
    (∀ p : Nat, p ≠ 0 → normalizePage p = p) ∧
    (∀ ss : List Source, normalizedSources ss =
        ss.map fun s => { s with page := normalizePage s.page }) := by
  refine ⟨?_, ?_, rfl, ?_, fun ss => rfl⟩
  · intro cur i n hm hn
    simp [finalizeSource, findPageNum_of_first_match i cur.data n hm hn]
  · intro cur h
    simp [finalizeSource, findPageNum_of_no_match cur.data h]
  · intro p hp
    simp [normalizePage, hp]

/-- C7 witness: the theorem applied to a record with a page header, a
record without any "Page " match, and pages 0 and 5. -/
theorem page_extraction_witness :
    (finalizeSource "Source 1 (Page 2): Foo").page = 2 ∧
    (finalizeSource "no page here").page = 0 ∧
    normalizePage 0 = 1 ∧ normalizePage 5 = 5 :=
  ⟨page_extraction_and_normalization.1 "Source 1 (Page 2): Foo" 10 2 (by decide) (by decide),
   page_extraction_and_normalization.2.1 "no page here" (by decide),
   page_extraction_and_normalization.2.2.1,
   page_extraction_and_normalization.2.2.2.1 5 (by decide)⟩

/-- C10 witness: the theorem applied to a chunk with answer text before
and after the sentinel. -/
theorem sentinel_chunk_discarded_witness :
    processPayload initialState (.chunkMsg "answer text --- Sources --- trailing") =
      ({ initialState with inSourcesSection := true }, []) :=
  sentinel_chunk_discarded initialState "answer text --- Sources --- trailing" (by decide)

/-! ### UTF-8 stateful decoding -/

theorem utf8DecodeChunk_nil (st : Utf8DecoderState) :
    utf8DecodeChunk st [] = (st, []) := rfl

theorem utf8DecodeChunk_cons (st : Utf8DecoderState) (b : Nat) (bs : List Nat) :
    utf8DecodeChunk st (b :: bs) =
      ((utf8DecodeChunk (utf8Step st b).1 bs).1,
       (utf8Step st b).2 ++ (utf8DecodeChunk (utf8Step st b).1 bs).2) := rfl

theorem utf8DecodeChunk_append (st : Utf8DecoderState) (xs ys : List Nat) :
    utf8DecodeChunk st (xs ++ ys) =
      ((utf8DecodeChunk (utf8DecodeChunk st xs).1 ys).1,
       (utf8DecodeChunk st xs).2 ++ (utf8DecodeChunk (utf8DecodeChunk st xs).1 ys).2) := by
  induction xs generalizing st with
  | nil => simp [utf8DecodeChunk_nil]
  | cons b bs ih =>
    simp only [List.cons_append, utf8DecodeChunk_cons, ih, List.append_assoc]

theorem utf8Step_init (b : Nat) : utf8Step initDecoder b = utf8Step0 b := rfl

theorem utf8Step0_lead2 (b : Nat) (h1 : 194 ≤ b) (h2 : b ≤ 223) :
    utf8Step0 b = ({ codepoint := b % 32, bytesNeeded := 1, bytesSeen := 0,
                     lowerBoundary := 128, upperBoundary := 191 }, []) := by
  unfold utf8Step0
  rw [if_neg (by omega), if_pos (by omega)]

theorem utf8Step0_lead3 (b : Nat) (h1 : 224 ≤ b) (h2 : b ≤ 239) :
    utf8Step0 b = ({ codepoint := b % 16, bytesNeeded := 2, bytesSeen := 0,
                     lowerBoundary := if b = 224 then 160 else 128,
                     upperBoundary := if b = 237 then 159 else 191 }, []) := by
  unfold utf8Step0
  rw [if_neg (by omega), if_neg (by omega), if_pos (by omega)]

theorem utf8Step0_lead4 (b : Nat) (h1 : 240 ≤ b) (h2 : b ≤ 244) :
    utf8Step0 b = ({ codepoint := b % 8, bytesNeeded := 3, bytesSeen := 0,
                     lowerBoundary := if b = 240 then 144 else 128,
                     upperBoundary := if b = 244 then 143 else 191 }, []) := by
  unfold utf8Step0
  rw [if_neg (by omega), if_neg (by omega), if_neg (by omega), if_pos (by omega)]

theorem utf8Step_cont_last (c n s lo hi b : Nat)
    (hne : n = s + 1) (hl : lo ≤ b) (hu : b ≤ hi) :
    utf8Step ⟨c, n, s, lo, hi⟩ b = (initDecoder, [c * 64 + b % 64]) := by
  unfold utf8Step
  rw [if_neg (by simp; omega), if_neg (by simp; omega), if_pos (by simp; omega)]

theorem utf8Step_cont_mid (c n s lo hi b : Nat)
    (hne : s + 1 < n) (hl : lo ≤ b) (hu : b ≤ hi) :
    utf8Step ⟨c, n, s, lo, hi⟩ b =
      ({ codepoint := c * 64 + b % 64, bytesNeeded := n, bytesSeen := s + 1,
         lowerBoundary := 128, upperBoundary := 191 }, []) := by
  unfold utf8Step
  rw [if_neg (by simp; omega), if_neg (by simp; omega), if_neg (by simp; omega)]

/-- Decoding the full encoding of one non-ASCII scalar value from a fresh
state yields exactly that scalar and returns to the fresh state. -/
theorem utf8_decode_encode (cp : Nat) (h1 : 128 ≤ cp) (h2 : cp ≤ 1114111)
    (h3 : cp < 55296 ∨ 57343 < cp) :
    utf8DecodeChunk initDecoder (utf8Encode cp) = (initDecoder, [cp]) := by
  rcases Nat.lt_or_ge cp 2048 with hr2 | hge2
  · -- two-byte sequence
    have he : utf8Encode cp = [192 + cp / 64, 128 + cp % 64] := by
      unfold utf8Encode
      rw [if_neg (by omega), if_pos (by omega)]
    have e1 : utf8Step initDecoder (192 + cp / 64) =
        ({ codepoint := cp / 64, bytesNeeded := 1, bytesSeen := 0,
           lowerBoundary := 128, upperBoundary := 191 }, []) := by
      rw [utf8Step_init, utf8Step0_lead2 _ (by omega) (by omega)]
      have : (192 + cp / 64) % 32 = cp / 64 := by omega
      rw [this]
    have e2 : utf8Step ⟨cp / 64, 1, 0, 128, 191⟩ (128 + cp % 64) =
        (initDecoder, [cp]) := by
      rw [utf8Step_cont_last _ _ _ _ _ _ rfl (by omega) (by omega)]
      have : cp / 64 * 64 + (128 + cp % 64) % 64 = cp := by omega
      rw [this]
    rw [he, utf8DecodeChunk_cons, e1]
    simp only [utf8DecodeChunk_cons, utf8DecodeChunk_nil, e2]
    rfl
  · rcases Nat.lt_or_ge cp 65536 with hr3 | hge3
    · -- three-byte sequence
      have he : utf8Encode cp = [224 + cp / 4096, 128 + cp / 64 % 64, 128 + cp % 64] := by
        unfold utf8Encode
        rw [if_neg (by omega), if_neg (by omega), if_pos (by omega)]
      have hb2lo : (if 224 + cp / 4096 = 224 then 160 else 128) ≤ 128 + cp / 64 % 64 := by
        split
        · -- lead E0: cp < 4096, and cp ≥ 2048 forces cp / 64 ∈ [32, 63]
          omega
        · omega
      have hb2hi : 128 + cp / 64 % 64 ≤ (if 224 + cp / 4096 = 237 then 159 else 191) := by
        split
        · -- lead ED: cp ∈ [53248, 55295] by the surrogate exclusion
          omega
        · omega
      have e1 : utf8Step initDecoder (224 + cp / 4096) =
          ({ codepoint := cp / 4096, bytesNeeded := 2, bytesSeen := 0,
             lowerBoundary := if 224 + cp / 4096 = 224 then 160 else 128,
             upperBoundary := if 224 + cp / 4096 = 237 then 159 else 191 }, []) := by
        rw [utf8Step_init, utf8Step0_lead3 _ (by omega) (by omega)]
        have : (224 + cp / 4096) % 16 = cp / 4096 := by omega
        rw [this]
      have e2 : utf8Step ⟨cp / 4096, 2, 0,
            if 224 + cp / 4096 = 224 then 160 else 128,
            if 224 + cp / 4096 = 237 then 159 else 191⟩ (128 + cp / 64 % 64) =
          ({ codepoint := cp / 64, bytesNeeded := 2, bytesSeen := 1,
             lowerBoundary := 128, upperBoundary := 191 }, []) := by
        rw [utf8Step_cont_mid _ _ _ _ _ _ (by omega) hb2lo hb2hi]
        have : cp / 4096 * 64 + (128 + cp / 64 % 64) % 64 = cp / 64 := by omega
        rw [this]
      have e3 : utf8Step ⟨cp / 64, 2, 1, 128, 191⟩ (128 + cp % 64) =
          (initDecoder, [cp]) := by
        rw [utf8Step_cont_last _ _ _ _ _ _ rfl (by omega) (by omega)]
        have : cp / 64 * 64 + (128 + cp % 64) % 64 = cp := by omega
        rw [this]
      rw [he, utf8DecodeChunk_cons, e1]
      simp only [utf8DecodeChunk_cons, utf8DecodeChunk_nil, e2, e3]
      rfl
    · -- four-byte sequence
      have he : utf8Encode cp =
          [240 + cp / 262144, 128 + cp / 4096 % 64, 128 + cp / 64 % 64, 128 + cp % 64] := by
        unfold utf8Encode
        rw [if_neg (by omega), if_neg (by omega), if_neg (by omega)]
      have hb2lo : (if 240 + cp / 262144 = 240 then 144 else 128) ≤ 128 + cp / 4096 % 64 := by
        split
        · -- lead F0: cp < 262144, and cp ≥ 65536 forces cp / 4096 ∈ [16, 63]
          omega
        · omega
      have hb2hi : 128 + cp / 4096 % 64 ≤ (if 240 + cp / 262144 = 244 then 143 else 191) := by
        split
        · -- lead F4: cp ∈ [1048576, 1114111], so cp / 4096 % 64 ≤ 15
          omega
        · omega
      have e1 : utf8Step initDecoder (240 + cp / 262144) =
          ({ codepoint := cp / 262144, bytesNeeded := 3, bytesSeen := 0,
             lowerBoundary := if 240 + cp / 262144 = 240 then 144 else 128,
             upperBoundary := if 240 + cp / 262144 = 244 then 143 else 191 }, []) := by
        rw [utf8Step_init, utf8Step0_lead4 _ (by omega) (by omega)]
        have : (240 + cp / 262144) % 8 = cp / 262144 := by omega
        rw [this]
      have e2 : utf8Step ⟨cp / 262144, 3, 0,
            if 240 + cp / 262144 = 240 then 144 else 128,
            if 240 + cp / 262144 = 244 then 143 else 191⟩ (128 + cp / 4096 % 64) =
          ({ codepoint := cp / 4096, bytesNeeded := 3, bytesSeen := 1,
             lowerBoundary := 128, upperBoundary := 191 }, []) := by
        rw [utf8Step_cont_mid _ _ _ _ _ _ (by omega) hb2lo hb2hi]
        have : cp / 262144 * 64 + (128 + cp / 4096 % 64) % 64 = cp / 4096 := by omega
        rw [this]
      have e3 : utf8Step ⟨cp / 4096, 3, 1, 128, 191⟩ (128 + cp / 64 % 64) =
          ({ codepoint := cp / 64, bytesNeeded := 3, bytesSeen := 2,
             lowerBoundary := 128, upperBoundary := 191 }, []) := by
        rw [utf8Step_cont_mid _ _ _ _ _ _ (by omega) (by omega) (by omega)]
        have : cp / 4096 * 64 + (128 + cp / 64 % 64) % 64 = cp / 64 := by omega
        rw [this]
      have e4 : utf8Step ⟨cp / 64, 3, 2, 128, 191⟩ (128 + cp % 64) =
          (initDecoder, [cp]) := by
        rw [utf8Step_cont_last _ _ _ _ _ _ rfl (by omega) (by omega)]
        have : cp / 64 * 64 + (128 + cp % 64) % 64 = cp := by omega
        rw [this]
      rw [he, utf8DecodeChunk_cons, e1]
      simp only [utf8DecodeChunk_cons, utf8DecodeChunk_nil, e2, e3, e4]
      rfl

theorem textDecodeChunk_eq (d : Utf8DecoderState) (bs : Bool) (bytes : List Nat) :
    textDecodeChunk ⟨d, bs⟩ bytes =
      (⟨(utf8DecodeChunk d bytes).1, (stripBom bs (utf8DecodeChunk d bytes).2).1⟩,
       (stripBom bs (utf8DecodeChunk d bytes).2).2) := rfl

theorem append_eq_singleton {α : Type} {a b : List α} {x : α}
    (h : a ++ b = [x]) : (a = [] ∧ b = [x]) ∨ (a = [x] ∧ b = []) := by
  cases a with
  | nil => exact Or.inl ⟨rfl, by simpa using h⟩
  | cons y ys =>
    simp only [List.cons_append, List.cons.injEq] at h
    obtain ⟨rfl, h2⟩ := h
    obtain ⟨rfl, rfl⟩ := List.append_eq_nil.mp h2
    exact Or.inr ⟨rfl, rfl⟩

/-- C4 (counterexample): the claim fails for the character U+FEFF split
across the stream's first two chunks: the default TextDecoder
(ignoreBOM unset) suppresses a stream-initial U+FEFF as a byte-order
mark, so the program emits nothing rather than the character once. -/
theorem utf8_bom_suppressed_cex :
    ¬ ((textDecodeChunk initTextDecoder ((utf8Encode 65279).take 1)).2 ++
        (textDecodeChunk (textDecodeChunk initTextDecoder ((utf8Encode 65279).take 1)).1
          ((utf8Encode 65279).drop 1)).2 = [65279]) := by
  decide

/-- C4 (amended): a multi-byte UTF-8 character whose bytes are split at
any point across two delivered byte chunks is decoded statefully to the
single correct character exactly once — no replacement character, no
duplicate — once the decoder has produced any earlier output (BOM-seen
set); from a freshly constructed decoder the same holds for every
character other than U+FEFF, while a stream-initial U+FEFF is suppressed
entirely. -/
theorem utf8_split_decode_bom (cp k : Nat) (h1 : 128 ≤ cp) (h2 : cp ≤ 1114111)
    (h3 : cp < 55296 ∨ 57343 < cp)
    (hk0 : 0 < k) (hk : k < (utf8Encode cp).length) :
    ((textDecodeChunk ⟨initDecoder, true⟩ ((utf8Encode cp).take k)).2 ++
        (textDecodeChunk (textDecodeChunk ⟨initDecoder, true⟩ ((utf8Encode cp).take k)).1
          ((utf8Encode cp).drop k)).2 = [cp]) ∧
    (cp ≠ 65279 →
      (textDecodeChunk initTextDecoder ((utf8Encode cp).take k)).2 ++
        (textDecodeChunk (textDecodeChunk initTextDecoder ((utf8Encode cp).take k)).1
          ((utf8Encode cp).drop k)).2 = [cp]) ∧
    (cp = 65279 →
      (textDecodeChunk initTextDecoder ((utf8Encode cp).take k)).2 ++
        (textDecodeChunk (textDecodeChunk initTextDecoder ((utf8Encode cp).take k)).1
          ((utf8Encode cp).drop k)).2 = []) := by
  have h := utf8DecodeChunk_append initDecoder
    ((utf8Encode cp).take k) ((utf8Encode cp).drop k)
  rw [List.take_append_drop, utf8_decode_encode cp h1 h2 h3] at h
  have hout : (utf8DecodeChunk initDecoder ((utf8Encode cp).take k)).2 ++
      (utf8DecodeChunk (utf8DecodeChunk initDecoder ((utf8Encode cp).take k)).1
        ((utf8Encode cp).drop k)).2 = [cp] :=
    (congrArg Prod.snd h).symm
  refine ⟨?_, ?_, ?_⟩
  · rcases append_eq_singleton hout with ⟨ha, hb⟩ | ⟨ha, hb⟩ <;>
      simp [textDecodeChunk_eq, stripBom, ha, hb]
  · intro hne
    rcases append_eq_singleton hout with ⟨ha, hb⟩ | ⟨ha, hb⟩ <;>
      simp [initTextDecoder, textDecodeChunk_eq, stripBom, ha, hb, hne]
  · intro hfeff
    subst hfeff
    rcases append_eq_singleton hout with ⟨ha, hb⟩ | ⟨ha, hb⟩ <;>
      simp [initTextDecoder, textDecodeChunk_eq, stripBom, ha, hb]

/-- C4 witness: the amended theorem applied to U+20AC (the three-byte
character €) split after its first byte, decoded by a fresh decoder. -/
theorem utf8_split_decode_bom_witness :
    (textDecodeChunk initTextDecoder ((utf8Encode 8364).take 1)).2 ++
      (textDecodeChunk (textDecodeChunk initTextDecoder ((utf8Encode 8364).take 1)).1
        ((utf8Encode 8364).drop 1)).2 = [8364] :=
  (utf8_split_decode_bom 8364 1 (by omega) (by omega) (by omega) (by omega)
    (by decide)).2.1 (by omega)

end RagStream
